import Mathlib

/-!
Verification of the scraping backend of `chatgpt-batch-query`
(`backend/server.js` and the frontend CSV export module).

Each section embeds one piece of the JavaScript source as executable Lean
definitions and proves the spec claims about it:

* URL extraction / source filtering (`extractUrls`, the link filter of
  `scrapeChatGPT`'s extraction `evaluate`, and their union);
* the extraction retry loop of `scrapeChatGPT`;
* `launchBrowserWithRetry`;
* the consecutive-check login confirmation loop of `POST /api/login`;
* the CSV export (`escapeCSV` / `exportToCSV`) plus a standard CSV parser
  for the round-trip property;
* the progress tick of `GET /api/scrape-progress/:sessionId`;
* the batch loop of `POST /api/scrape` with its progress-store updates.
-/

namespace ChatGPTBatch

/-! ### Substring test (JavaScript `String.prototype.includes`) -/

/-- Does `s` contain `pat` as a (contiguous) substring, starting at some
position?  Models JavaScript `s.includes(pat)`. -/
def hasSubAux (pat : List Char) : List Char → Bool
  | [] => pat.isEmpty
  | c :: t => pat.isPrefixOf (c :: t) || hasSubAux pat t

/-- JavaScript `s.includes(pat)`. -/
def strContains (s pat : String) : Bool :=
  hasSubAux pat.data s.data

/-! ### De-duplication (JavaScript `[...new Set(xs)]`)

A JavaScript `Set` keeps the first occurrence of every element, in
insertion order. -/

/-- First-occurrence de-duplication, the semantics of `[...new Set(xs)]`:
insert elements in order, skipping ones already present. -/
def dedupJS (xs : List String) : List String :=
  xs.foldl (fun acc x => if x ∈ acc then acc else acc ++ [x]) []

theorem mem_dedupJS_foldl {u : String} :
    ∀ (xs acc : List String),
      u ∈ xs.foldl (fun acc x => if x ∈ acc then acc else acc ++ [x]) acc →
      u ∈ acc ∨ u ∈ xs := by
  intro xs
  induction xs with
  | nil => intro acc h; exact Or.inl h
  | cons x xs ih =>
    intro acc h
    rcases ih _ h with h' | h'
    · by_cases hx : x ∈ acc
      · simp only [if_pos hx] at h'
        exact Or.inl h'
      · simp only [if_neg hx] at h'
        rcases List.mem_append.1 h' with h'' | h''
        · exact Or.inl h''
        · simp only [List.mem_singleton] at h''
          exact Or.inr (h'' ▸ List.mem_cons_self _ _)
    · exact Or.inr (List.mem_cons_of_mem _ h')

theorem mem_of_mem_dedupJS {u : String} {xs : List String} (h : u ∈ dedupJS xs) :
    u ∈ xs := by
  rcases mem_dedupJS_foldl xs [] h with h' | h'
  · simp at h'
  · exact h'

/-! ### URL scanning (the regex `/(https?:\/\/[^\s\)]+)/g`) -/

/-- A character matched by the regex class `[^\s\)]`. -/
def isUrlChar (c : Char) : Bool :=
  !c.isWhitespace && c ≠ ')'

/-- If the input starts with `https://` or `http://`, return the matched
scheme prefix together with the remaining characters. -/
def urlSchemeSplit : List Char → Option (List Char × List Char)
  | 'h' :: 't' :: 't' :: 'p' :: 's' :: ':' :: '/' :: '/' :: rest =>
    some (['h', 't', 't', 'p', 's', ':', '/', '/'], rest)
  | 'h' :: 't' :: 't' :: 'p' :: ':' :: '/' :: '/' :: rest =>
    some (['h', 't', 't', 'p', ':', '/', '/'], rest)
  | _ => none

/-- Global scan of the regex `/(https?:\/\/[^\s\)]+)/g` over the character
list, fuel-bounded by the input length (each step consumes at least one
character). -/
def scanUrlsAux : Nat → List Char → List String
  | 0, _ => []
  | _ + 1, [] => []
  | fuel + 1, c :: rest =>
    match urlSchemeSplit (c :: rest) with
    | some (pre, body) =>
      let taken := body.takeWhile isUrlChar
      if taken.isEmpty then scanUrlsAux fuel rest
      else ⟨pre ++ taken⟩ :: scanUrlsAux fuel (body.dropWhile isUrlChar)
    | none => scanUrlsAux fuel rest

/-- All matches of `/(https?:\/\/[^\s\)]+)/g` in `text`
(JavaScript `text.match(urlRegex) || []`). -/
def matchUrls (text : String) : List String :=
  scanUrlsAux text.data.length text.data

/-- `extractUrls` from `backend/server.js` (lines 60-71): scan the text for
raw URLs, drop ChatGPT/OpenAI internal ones (including the auth host paths),
and de-duplicate. -/
def extractUrls (text : String) : List String :=
  let urls := matchUrls text
  let filteredUrls := urls.filter (fun url =>
    !strContains url "chatgpt.com/backend" &&
    !strContains url "openai.com" &&
    !strContains url "chatgpt.com/auth")
  dedupJS filteredUrls

/-- The link collection of the extraction `evaluate` in `scrapeChatGPT`
(lines 633-641): keep every non-empty anchor `href` of the cloned answer
subtree unless it mentions `chatgpt.com/backend` or `openai.com` (note:
no `chatgpt.com/auth` test here), de-duplicated via a `Set`. -/
def linkSources (hrefs : List String) : List String :=
  dedupJS (hrefs.filter (fun href =>
    href ≠ "" &&
    !strContains href "chatgpt.com/backend" &&
    !strContains href "openai.com"))

/-- The source post-processing of `scrapeChatGPT` (lines 726-728):
`[...new Set([...resultData.sources, ...additionalUrls])]` where
`resultData.sources` are the link-derived URLs and `additionalUrls` come
from `extractUrls` on the answer text. -/
def finalSources (hrefs : List String) (answer : String) : List String :=
  dedupJS (linkSources hrefs ++ extractUrls answer)

/-- The final `sources` string of a `ScrapeResult`: `allSources.join(', ')`. -/
def joinSources (srcs : List String) : String :=
  String.intercalate ", " srcs

theorem mem_extractUrls_excludes {answer u : String} (h : u ∈ extractUrls answer) :
    strContains u "chatgpt.com/backend" = false ∧
    strContains u "openai.com" = false ∧
    strContains u "chatgpt.com/auth" = false := by
  have h' := mem_of_mem_dedupJS h
  have := (List.mem_filter.1 h').2
  simp only [Bool.and_eq_true, Bool.not_eq_true'] at this
  exact ⟨this.1.1, this.1.2, this.2⟩

theorem mem_linkSources_excludes {hrefs : List String} {u : String}
    (h : u ∈ linkSources hrefs) :
    strContains u "chatgpt.com/backend" = false ∧
    strContains u "openai.com" = false := by
  have h' := List.mem_filter.1 (mem_of_mem_dedupJS h)
  have := h'.2
  simp only [Bool.and_eq_true, Bool.not_eq_true', decide_eq_true_eq] at this
  exact ⟨this.1.2, this.2⟩

/-- Claim C3, counterexample: the ChatGPT auth URL
`https://chatgpt.com/auth/login`, supplied as an anchor `href` of the cloned
answer DOM, survives into the final source list, because the link filter of
the extraction `evaluate` only tests for `chatgpt.com/backend` and
`openai.com` — contradicting the claim that internal/auth URLs are excluded
from the link-derived source set. -/
theorem C3_counterexample :
    strContains "https://chatgpt.com/auth/login" "chatgpt.com/auth" = true ∧
    "https://chatgpt.com/auth/login" ∈
      finalSources ["https://chatgpt.com/auth/login"]
        "This is a sufficiently long answer." := by
  exact ⟨by decide, by decide⟩

/-- Claim C3 (amended): every URL mentioning `chatgpt.com/backend` or
`openai.com` is excluded from the final sources, whether it arrives as a
link or in the answer text; URLs mentioning `chatgpt.com/auth` are excluded
from the text-derived set (`extractUrls`) only — the link-derived set does
not filter them. -/
theorem C3_internal_url_exclusion :
    (∀ (hrefs : List String) (answer u : String), u ∈ finalSources hrefs answer →
      strContains u "chatgpt.com/backend" = false ∧
      strContains u "openai.com" = false) ∧
    (∀ (answer u : String), u ∈ extractUrls answer →
      strContains u "chatgpt.com/auth" = false) := by
  constructor
  · intro hrefs answer u h
    rcases List.mem_append.1 (mem_of_mem_dedupJS h) with h' | h'
    · exact mem_linkSources_excludes h'
    · exact ⟨(mem_extractUrls_excludes h').1, (mem_extractUrls_excludes h').2.1⟩
  · intro answer u h
    exact (mem_extractUrls_excludes h).2.2

/-- Witness for the amended claim C3 at a concrete input. -/
theorem C3_internal_url_exclusion_witness :
    ("https://ok.com/page" ∈
      finalSources ["https://ok.com/page"] "An answer with no raw URL.") ∧
    (strContains "https://ok.com/page" "chatgpt.com/backend" = false ∧
     strContains "https://ok.com/page" "openai.com" = false) :=
  ⟨by decide,
   C3_internal_url_exclusion.1 ["https://ok.com/page"]
     "An answer with no raw URL." "https://ok.com/page" (by decide)⟩

/-! ### The extraction retry loop of `scrapeChatGPT` (server.js lines 571-736)

The loop runs `retryAttempt` from 1 to `maxRetries = 3`.  Each attempt
checks for a login modal and then runs the extraction `evaluate` on the
page.  We model what one attempt observes on the page as `AttemptObs`. -/

/-- What one extraction attempt observes. -/
inductive AttemptObs where
  /-- A login modal is detected during the attempt — by the pre-evaluate
  check (lines 580-593) or by the `evaluate`'s own check (lines 597-607,
  surfaced as `{ error: 'LOGIN_REQUIRED' }` and rethrown at 654-656).  Both
  `LOGIN_REQUIRED` throws sit *inside* the attempt's `try` (opened at 576)
  and are caught by the `catch (evalError)` at 678, so they retry like any
  evaluate error. -/
  | loginModal
  /-- `page.evaluate` threw (`evalError` branch). -/
  | evalThrow
  /-- The `evaluate` found no bot `article` node and returned `null`. -/
  | noArticle
  /-- The `evaluate` found an article but no `.markdown`/`.prose` child and
  returned `{ answer: "Markdown content not found.", sources: [] }`. -/
  | noMarkdownDiv
  /-- The `evaluate` produced the cleaned answer text and the link-derived
  source URLs of the cloned subtree. -/
  | content (answer : String) (sources : List String)
deriving DecidableEq, Repr

/-- Outcome of the extraction phase of `scrapeChatGPT`. -/
inductive ExtractOutcome where
  /-- `resultData` accepted; carries the answer text and link sources. -/
  | ok (answer : String) (sources : List String)
  /-- Threw `Failed to extract data from page after 3 attempts: ...`
  (the attempt's `try` threw on the final attempt; `loginRequired` records
  whether the caught error was the `LOGIN_REQUIRED` throw, whose message is
  embedded in the wrapped error). -/
  | errEvalFailed (loginRequired : Bool)
  /-- Threw `Failed to extract answer from ChatGPT response after 3
  attempts. ...` (`resultData` still `null` after the loop). -/
  | errNoResult
  /-- Threw `Failed to extract valid answer. Got: "..."` (answer missing,
  empty or shorter than 10 characters). -/
  | errShortAnswer (answer : String)
deriving DecidableEq, Repr

/-- The code after the retry loop (lines 697-724): `resultData` still `null`
raises the no-result error; an empty answer or one shorter than 10
characters raises the short-answer error; otherwise the attempt's data is
accepted. -/
def afterExtractLoop : Option (String × List String) → ExtractOutcome
  | none => .errNoResult
  | some (a, s) => if a.length < 10 then .errShortAnswer a else .ok a s

/-- One step of the retry loop per remaining attempt.  The list holds the
observations of the attempts still to run (head = current attempt); a
singleton means the current attempt is the last one.  `rd` is the current
`resultData`.  Mirrors lines 575-695: a `LOGIN_REQUIRED` throw (login
modal) and an `evaluate` error are both caught by the attempt's
`catch (evalError)` at 678 — the loop waits and retries, and only on the
last attempt rethrows the wrapped eval-failed error; a `null` result (no
article) waits, re-scrolls and retries; a result object with truthy
(non-empty) `answer` breaks out of the loop; a result object with empty
`answer` is kept in `resultData` but the loop retries.

On `loginModal`, `rd` is left unchanged: the pre-check throw (592) happens
before `resultData` is reassigned, and although the in-evaluate detection
does assign the `{ error: 'LOGIN_REQUIRED' }` object to `resultData` before
the rethrow at 656, that value can never reach the post-loop checks — the
loop only exits into them through a final attempt that completes without
throwing, which reassigns `resultData`. -/
def extractLoopGo : List AttemptObs → Option (String × List String) → ExtractOutcome
  | [], rd => afterExtractLoop rd
  | o :: rest, rd =>
    match o with
    | .loginModal => if rest.isEmpty then .errEvalFailed true else extractLoopGo rest rd
    | .evalThrow => if rest.isEmpty then .errEvalFailed false else extractLoopGo rest rd
    | .noArticle => extractLoopGo rest none
    | .noMarkdownDiv => afterExtractLoop (some ("Markdown content not found.", []))
    | .content a s =>
      if a = "" then extractLoopGo rest (some (a, s)) else afterExtractLoop (some (a, s))

/-- The extraction phase: `maxRetries = 3` attempts over the page
observations, starting from `resultData = null`. -/
def extractAttempts (obs : List AttemptObs) : ExtractOutcome :=
  extractLoopGo (obs.take 3) none

/-- Claim C4, counterexample: a first attempt producing the non-empty answer
`"4"` — shorter than the 10-character minimum — is *not* treated as a failed
attempt: it breaks out of the retry loop and extraction raises the
short-answer error immediately, even though the remaining two attempts would
have produced a valid long answer (shown by the second conjunct: the same
long observation is accepted when it is the first attempt). -/
theorem C4_counterexample :
    extractAttempts
        [.content "4" [], .content "A fully valid long answer." [],
         .content "A fully valid long answer." []] = .errShortAnswer "4" ∧
    extractAttempts [.content "A fully valid long answer." []] =
      .ok "A fully valid long answer." [] := by
  exact ⟨by decide, by decide⟩

/-- Claim C4 (amended): an attempt that finds no content node (`null`
result) or produces empty text waits, re-scrolls and retries, and only
after all 3 attempts fail in one of these ways does extraction raise the
ExtractionFailed errors; but a non-empty text shorter than the 10-character
minimum ends the retry loop as a successful attempt and extraction then
raises the short-answer error immediately, without further retries. -/
theorem C4_extraction_retry_policy :
    (∀ (o2 o3 : AttemptObs) (rest : List AttemptObs),
      extractAttempts (.noArticle :: o2 :: o3 :: rest) =
        extractLoopGo [o2, o3] none) ∧
    (∀ (s : List String) (o2 o3 : AttemptObs) (rest : List AttemptObs),
      extractAttempts (.content "" s :: o2 :: o3 :: rest) =
        extractLoopGo [o2, o3] (some ("", s))) ∧
    (∀ (a : String) (s : List String) (rest : List AttemptObs),
      a ≠ "" → a.length < 10 →
      extractAttempts (.content a s :: rest) = .errShortAnswer a) ∧
    (∀ (o1 o2 o3 : AttemptObs) (rest : List AttemptObs),
      (∀ o ∈ [o1, o2, o3], o = .noArticle ∨ ∃ s, o = .content "" s) →
      extractAttempts (o1 :: o2 :: o3 :: rest) = .errNoResult ∨
      extractAttempts (o1 :: o2 :: o3 :: rest) = .errShortAnswer "") := by
  refine ⟨?_, ?_, ?_, ?_⟩
  · intro o2 o3 rest
    simp [extractAttempts, extractLoopGo]
  · intro s o2 o3 rest
    simp [extractAttempts, extractLoopGo]
  · intro a s rest ha hlen
    simp [extractAttempts, extractLoopGo, ha, afterExtractLoop, hlen]
  · intro o1 o2 o3 rest h
    have h1 := h o1 (by simp)
    have h2 := h o2 (by simp)
    have h3 := h o3 (by simp)
    rcases h3 with rfl | ⟨s3, rfl⟩
    · left
      rcases h1 with rfl | ⟨s1, rfl⟩ <;> rcases h2 with rfl | ⟨s2, rfl⟩ <;>
        simp [extractAttempts, extractLoopGo, afterExtractLoop]
    · right
      rcases h1 with rfl | ⟨s1, rfl⟩ <;> rcases h2 with rfl | ⟨s2, rfl⟩ <;>
        simp [extractAttempts, extractLoopGo, afterExtractLoop]

/-- Witness for the amended claim C4 at a concrete input. -/
theorem C4_extraction_retry_policy_witness :
    ("4" ≠ "" ∧ "4".length < 10) ∧
    extractAttempts [.content "4" ["https://x.y"]] = .errShortAnswer "4" :=
  ⟨⟨by decide, by decide⟩,
   C4_extraction_retry_policy.2.2.1 "4" ["https://x.y"] [] (by decide) (by decide)⟩

/-! ### `launchBrowserWithRetry` (server.js lines 153-242)

Up to `maxRetries` attempts.  Per attempt: race `puppeteer.launch` against a
60 s timeout; on a successful process start, request the open-page list
(`browser.pages()`) — if that throws, close the half-started browser and
fail the attempt — and then request `browser.version()` inside its own
`try`/`catch` whose handler only logs, so a version error never fails the
attempt.  We record, per attempt, what the environment did. -/

/-- Observation of one launch attempt. -/
inductive LaunchObs where
  /-- `puppeteer.launch` threw or exceeded the 60-second timeout. -/
  | failLaunch
  /-- The process started; `pagesOk` is whether `browser.pages()` succeeded
  and `versionOk` whether `browser.version()` succeeded. -/
  | launched (pagesOk : Bool) (versionOk : Bool)
deriving DecidableEq, Repr

/-- Result of the launch procedure. -/
inductive LaunchResult where
  /-- Returned the browser from attempt `attempt`. -/
  | success (attempt : Nat)
  /-- Threw `Failed to launch browser after N attempts. ...`. -/
  | failure
deriving DecidableEq, Repr

/-- The attempt loop: `attempt` is the current 1-based attempt number and
the `Nat` fuel the number of attempts still allowed.  Besides the result it
returns the list of attempt numbers whose half-started browser was closed
(the `browser.close()` of the `verifyError` handler, lines 189-195). -/
def launchGo (obs : Nat → LaunchObs) : Nat → Nat → LaunchResult × List Nat
  | _, 0 => (.failure, [])
  | attempt, n + 1 =>
    match obs attempt with
    | .failLaunch => launchGo obs (attempt + 1) n
    | .launched pagesOk _ =>
      if pagesOk then (.success attempt, [])
      else
        let r := launchGo obs (attempt + 1) n
        (r.1, attempt :: r.2)

/-- `launchBrowserWithRetry(launchOptions, maxRetries)`: attempts start at 1. -/
def launchBrowserWithRetry (obs : Nat → LaunchObs) (maxRetries : Nat) :
    LaunchResult × List Nat :=
  launchGo obs 1 maxRetries

/-- Claim C5, counterexample: on an attempt where the process starts and the
open-page list succeeds but `browser.version()` throws, the launch
nevertheless succeeds on that very attempt and no browser is closed — the
version error is caught by its inner handler and only logged.  This
contradicts "a launch attempt never succeeds when the version check
throws". -/
theorem C5_counterexample :
    launchBrowserWithRetry (fun _ => .launched true false) 3 = (.success 1, []) := by
  decide

/-- Claim C5 (amended): after a successful process start the launcher
requests the open-page list; if that check throws, the attempt fails and
the half-started browser is closed before retrying.  The product-version
request is made inside its own try/catch whose handler only logs, so an
attempt on which the page-list check succeeds returns the browser even when
the version check throws. -/
theorem C5_liveness_checks :
    (∀ (obs : Nat → LaunchObs) (a n : Nat) (v : Bool),
      obs a = .launched true v →
      launchGo obs a (n + 1) = (.success a, [])) ∧
    (∀ (obs : Nat → LaunchObs) (a n : Nat) (v : Bool),
      obs a = .launched false v →
      launchGo obs a (n + 1) =
        ((launchGo obs (a + 1) n).1, a :: (launchGo obs (a + 1) n).2)) := by
  constructor
  · intro obs a n v h
    simp [launchGo, h]
  · intro obs a n v h
    simp [launchGo, h]

/-- Witness for the amended claim C5 at a concrete input: the version check
throws on attempt 1 yet the launch succeeds there. -/
theorem C5_liveness_checks_witness :
    (fun _ => LaunchObs.launched true false : Nat → LaunchObs) 1 =
        .launched true false ∧
    launchGo (fun _ => .launched true false) 1 (2 + 1) = (.success 1, []) :=
  ⟨rfl, C5_liveness_checks.1 (fun _ => .launched true false) 1 2 false rfl⟩

/-! ### The login confirmation loop of `POST /api/login` (server.js 1368-1530)

The loop runs `i` from 0 to 119 (5-second polls, up to 10 minutes).  Each
iteration checks whether the page is closed, then evaluates the strict
login check; `consecutiveLoginChecks` is incremented on a pass and reset to
0 on a fail.  Login is confirmed once the counter reaches
`requiredConsecutiveChecks = 3`.  If the evaluate throws, the counter is
reset first and a URL-based strict fallback check may then set it to 1. -/

/-- Observation of one poll iteration of the login loop. -/
inductive LoginCheckObs where
  /-- The `evaluate` returned; `pass` is `isFullyLoggedIn`. -/
  | result (pass : Bool)
  /-- The page was closed by the user; the loop breaks. -/
  | pageClosed
  /-- The `evaluate` threw; `strictPass` is the result of the URL-based
  fallback strict check (`none`: URL not usable or `page.url()` threw). -/
  | evalErr (strictPass : Option Bool)
deriving DecidableEq, Repr

/-- The poll loop over the remaining observations, given the current
`consecutiveLoginChecks` counter; returns the (relative) index of the
iteration on which login was confirmed, `none` if the loop ends without
confirmation. -/
def loginPollGo : List LoginCheckObs → Nat → Option Nat
  | [], _ => none
  | o :: rest, cnt =>
    match o with
    | .pageClosed => none
    | .result pass =>
      if pass then
        if cnt + 1 ≥ 3 then some 0 else (loginPollGo rest (cnt + 1)).map (· + 1)
      else (loginPollGo rest 0).map (· + 1)
    | .evalErr strictPass =>
      match strictPass with
      | some true =>
        if 0 + 1 ≥ 3 then some 0 else (loginPollGo rest (0 + 1)).map (· + 1)
      | _ => (loginPollGo rest 0).map (· + 1)

/-- The whole login wait: at most 120 iterations, counter starts at 0. -/
def loginConfirmIndex (obs : List LoginCheckObs) : Option Nat :=
  loginPollGo (obs.take 120) 0

/-- Specification-side predicate: iteration `i` ends a run of 3 consecutive
passes, where `cnt` virtual passes are carried in from before the start of
`cs` (the top-level call uses `cnt = 0`, so the run must lie inside `cs`). -/
def genWindow (cnt : Nat) (cs : List Bool) (i : Nat) : Prop :=
  i < cs.length ∧ 2 ≤ i + cnt ∧
    ∀ j, j ≤ i → i ≤ j + 2 → cs.getD j false = true

theorem genWindow_zero_head_true {cnt : Nat} (h : cnt ≤ 1) (bs : List Bool) :
    ¬ genWindow cnt (true :: bs) 0 := by
  rintro ⟨-, h2, -⟩
  omega

theorem genWindow_zero_head_false {cnt : Nat} (bs : List Bool) :
    ¬ genWindow cnt (false :: bs) 0 := by
  rintro ⟨-, -, hw⟩
  have := hw 0 (by omega) (by omega)
  simp at this

theorem genWindow_succ_head_true {cnt : Nat} (bs : List Bool) (i : Nat) :
    genWindow cnt (true :: bs) (i + 1) ↔ genWindow (cnt + 1) bs i := by
  constructor
  · rintro ⟨hlen, h2, hw⟩
    refine ⟨by simpa using hlen, by omega, ?_⟩
    intro j hj1 hj2
    have := hw (j + 1) (by omega) (by omega)
    simpa using this
  · rintro ⟨hlen, h2, hw⟩
    refine ⟨by simpa using hlen, by omega, ?_⟩
    intro j hj1 hj2
    cases j with
    | zero => simp
    | succ k =>
      have := hw k (by omega) (by omega)
      simpa using this

theorem genWindow_succ_head_false {cnt : Nat} (bs : List Bool) (i : Nat) :
    genWindow cnt (false :: bs) (i + 1) ↔ genWindow 0 bs i := by
  constructor
  · rintro ⟨hlen, h2, hw⟩
    have hi2 : 2 ≤ i := by
      by_contra hlt
      have := hw 0 (by omega) (by omega)
      simp at this
    refine ⟨by simpa using hlen, by omega, ?_⟩
    intro j hj1 hj2
    have := hw (j + 1) (by omega) (by omega)
    simpa using this
  · rintro ⟨hlen, h2, hw⟩
    refine ⟨by simpa using hlen, by omega, ?_⟩
    intro j hj1 hj2
    cases j with
    | zero => omega
    | succ k =>
      have := hw k (by omega) (by omega)
      simpa using this

theorem loginPollGo_result_eq :
    ∀ (bs : List Bool) (cnt : Nat), cnt ≤ 2 → ∀ i : Nat,
      (loginPollGo (bs.map .result) cnt = some i ↔
        (genWindow cnt bs i ∧ ∀ j, j < i → ¬ genWindow cnt bs j)) := by
  intro bs
  induction bs with
  | nil =>
    intro cnt hcnt i
    constructor
    · intro h
      simp [loginPollGo] at h
    · rintro ⟨⟨hlen, -, -⟩, -⟩
      simp at hlen
  | cons b bs ih =>
    intro cnt hcnt i
    cases b with
    | true =>
      by_cases h3 : cnt + 1 ≥ 3
      · have hc2 : cnt = 2 := by omega
        subst hc2
        have hzero : genWindow 2 (true :: bs) 0 := by
          refine ⟨by simp, by omega, ?_⟩
          intro j hj1 hj2
          interval_cases j
          simp
        simp only [List.map_cons, loginPollGo, if_pos h3]
        constructor
        · intro h
          have hi : i = 0 := (Option.some_inj.1 h).symm
          subst hi
          exact ⟨hzero, by omega⟩
        · rintro ⟨hw, hmin⟩
          rcases Nat.eq_zero_or_pos i with hi | hi
          · subst hi; rfl
          · exact absurd hzero (hmin 0 hi)
      · have hcnt1 : cnt ≤ 1 := by omega
        simp only [List.map_cons, loginPollGo, if_neg h3, if_pos]
        rw [Option.map_eq_some']
        constructor
        · rintro ⟨i', hrec, hi⟩
          subst hi
          have := (ih (cnt + 1) (by omega) i').1 hrec
          refine ⟨(genWindow_succ_head_true bs i').2 this.1, ?_⟩
          intro j hj
          cases j with
          | zero => exact genWindow_zero_head_true hcnt1 bs
          | succ k =>
            rw [genWindow_succ_head_true]
            exact this.2 k (by omega)
        · rintro ⟨hw, hmin⟩
          cases i with
          | zero => exact absurd hw (genWindow_zero_head_true hcnt1 bs)
          | succ i' =>
            refine ⟨i', ?_, rfl⟩
            refine (ih (cnt + 1) (by omega) i').2 ⟨(genWindow_succ_head_true bs i').1 hw, ?_⟩
            intro k hk
            have := hmin (k + 1) (by omega)
            rw [genWindow_succ_head_true] at this
            exact this
    | false =>
      simp only [List.map_cons, loginPollGo, if_neg (Bool.false_ne_true)]
      rw [Option.map_eq_some']
      constructor
      · rintro ⟨i', hrec, hi⟩
        subst hi
        have := (ih 0 (by omega) i').1 hrec
        refine ⟨(genWindow_succ_head_false bs i').2 this.1, ?_⟩
        intro j hj
        cases j with
        | zero => exact genWindow_zero_head_false bs
        | succ k =>
          rw [genWindow_succ_head_false]
          exact this.2 k (by omega)
      · rintro ⟨hw, hmin⟩
        cases i with
        | zero => exact absurd hw (genWindow_zero_head_false bs)
        | succ i' =>
          refine ⟨i', ?_, rfl⟩
          refine (ih 0 (by omega) i').2 ⟨(genWindow_succ_head_false bs i').1 hw, ?_⟩
          intro k hk
          have := hmin (k + 1) (by omega)
          rw [genWindow_succ_head_false] at this
          exact this

/-- Claim C6: the login flow confirms login exactly at the end of the first
uninterrupted run of 3 passing checks (within the 120-iteration budget):
any failing check resets the consecutive-pass counter, so `some i` is
returned iff checks `i-2`, `i-1`, `i` all pass and no earlier index ends
such a run.  The second conjunct replays the spec's example: pass, fail,
pass, pass, pass confirms exactly after the final run of 3 (index 4). -/
theorem C6_consecutive_login_confirmation :
    (∀ (checks : List Bool) (i : Nat),
      loginConfirmIndex (checks.map .result) = some i ↔
        (genWindow 0 (checks.take 120) i ∧
          ∀ j, j < i → ¬ genWindow 0 (checks.take 120) j)) ∧
    loginConfirmIndex ([true, false, true, true, true].map .result) = some 4 := by
  constructor
  · intro checks i
    rw [loginConfirmIndex, ← List.map_take]
    exact loginPollGo_result_eq (checks.take 120) 0 (by omega) i
  · decide

/-! ### CSV export (frontend `lib/csv-export.ts`: `exportToCSV` / `escapeCSV`)

`escapeCSV` wraps a field in double quotes when it contains a comma,
newline or double quote, doubling embedded quotes; rows are the three
escaped fields joined with `,`, the content is the header row plus the data
rows joined with `\n`. -/

/-- The frontend's `ScrapeResult` interface (also the shape produced by
`scrapeChatGPT` and the error rows of the batch loop). -/
structure ScrapeResult where
  question : String
  answer : String
  sources : String
deriving DecidableEq, Repr

/-- `str.includes(',') || str.includes('\n') || str.includes('"')`. -/
def needsCSVQuoting (cs : List Char) : Bool :=
  decide (',' ∈ cs) || decide ('\n' ∈ cs) || decide ('"' ∈ cs)

/-- `str.replace(/"/g, '""')` at the character level. -/
def doubleQuotes : List Char → List Char
  | [] => []
  | c :: t => if c = '"' then '"' :: '"' :: doubleQuotes t else c :: doubleQuotes t

/-- `escapeCSV` from `lib/csv-export.ts` at the character level. -/
def escapeCSVChars (cs : List Char) : List Char :=
  if needsCSVQuoting cs then '"' :: (doubleQuotes cs ++ ['"']) else cs

/-- `escapeCSV` on strings. -/
def escapeCSV (s : String) : String :=
  ⟨escapeCSVChars s.data⟩

/-- `Array.prototype.join(sep)` at the character level. -/
def joinSep (sep : List Char) : List (List Char) → List Char
  | [] => []
  | [x] => x
  | x :: y :: t => x ++ sep ++ joinSep sep (y :: t)

/-- One data row: the escaped fields joined with `,`. -/
def csvRowChars (fields : List (List Char)) : List Char :=
  joinSep [','] (fields.map escapeCSVChars)

/-- The CSV content: header row and data rows joined with `\n`. -/
def csvContentChars (rows : List (List (List Char))) : List Char :=
  joinSep ['\n'] ("Question,Answer,Sources".data :: rows.map csvRowChars)

/-- `exportToCSV`: the serialized CSV text for a result list (the download
side effect is not part of the data contract). -/
def exportToCSV (results : List ScrapeResult) : String :=
  ⟨csvContentChars (results.map (fun r =>
    [r.question.data, r.answer.data, r.sources.data]))⟩

/-! #### A standard CSV parser

Follows the spec's words ("round-trips through export and a trivial
parser"): fields are separated by `,`, records by `\n`; a field starting
with `"` extends to the matching closing quote with `""` decoding to a
literal quote; any other field extends to the next separator. -/

/-- Parse the body of a quoted field.  `acc` holds the field read so far,
reversed.  Returns the field and the input after the closing quote. -/
def parseQuoted : List Char → List Char → (List Char × List Char)
  | [], acc => (acc.reverse, [])
  | c :: cs, acc =>
    if c = '"' then
      match cs with
      | [] => (acc.reverse, [])
      | c2 :: cs2 => if c2 = '"' then parseQuoted cs2 ('"' :: acc) else (acc.reverse, cs)
    else parseQuoted cs (c :: acc)

/-- Is `c` still part of an unquoted field? -/
def notFieldEnd (c : Char) : Bool :=
  c ≠ ',' && c ≠ '\n'

/-- Parse one field; returns the field and the remaining input starting at
the separator (if any). -/
def parseFieldC : List Char → (List Char × List Char)
  | [] => ([], [])
  | c :: cs =>
    if c = '"' then parseQuoted cs []
    else ((c :: cs).takeWhile notFieldEnd, (c :: cs).dropWhile notFieldEnd)

/-- Parse records; `cur` holds the fields of the current record, reversed.
The fuel is an upper bound on the number of fields (every step consumes at
least the separator). -/
def parseRecAux : Nat → List Char → List (List Char) → List (List (List Char))
  | 0, _, cur => [cur.reverse]
  | n + 1, cs, cur =>
    match parseFieldC cs with
    | (f, ',' :: cs2) => parseRecAux n cs2 (f :: cur)
    | (f, '\n' :: cs2) => (f :: cur).reverse :: parseRecAux n cs2 []
    | (f, _) => [(f :: cur).reverse]

/-- The standard CSV parse of a whole text. -/
def standardCSVParse (s : String) : List (List String) :=
  (parseRecAux (s.data.length + 1) s.data []).map
    (fun rec => rec.map (fun f => (⟨f⟩ : String)))

theorem parseQuoted_rest_length :
    ∀ (cs acc : List Char), (parseQuoted cs acc).2.length ≤ cs.length
  | [], acc => by simp [parseQuoted]
  | c :: cs, acc => by
    rw [parseQuoted.eq_def]
    by_cases hc : c = '"'
    · simp only [if_pos hc]
      match cs with
      | [] => simp
      | c2 :: cs2 =>
        by_cases hc2 : c2 = '"'
        · simp only [if_pos hc2]
          have := parseQuoted_rest_length cs2 ('"' :: acc)
          simp only [List.length_cons]
          omega
        · simp only [if_neg hc2]
          simp only [List.length_cons]
          omega
    · simp only [if_neg hc]
      have := parseQuoted_rest_length cs (c :: acc)
      simp only [List.length_cons]
      omega
termination_by cs _ => cs.length

theorem parseFieldC_rest_length (cs : List Char) :
    (parseFieldC cs).2.length ≤ cs.length := by
  match cs with
  | [] => simp [parseFieldC]
  | c :: cs =>
    rw [parseFieldC.eq_def]
    by_cases hc : c = '"'
    · simp only [if_pos hc]
      have := parseQuoted_rest_length cs []
      simp only [List.length_cons]
      omega
    · simp only [if_neg hc]
      exact ((c :: cs).dropWhile_suffix notFieldEnd).length_le

theorem parseRecAux_step_comma (n : Nat) (cs : List Char) (cur : List (List Char))
    (f cs2 : List Char) (hfr : parseFieldC cs = (f, ',' :: cs2)) :
    parseRecAux (n + 1) cs cur = parseRecAux n cs2 (f :: cur) := by
  rw [parseRecAux, hfr]
  simp

theorem parseRecAux_step_newline (n : Nat) (cs : List Char) (cur : List (List Char))
    (f cs2 : List Char) (hfr : parseFieldC cs = (f, '\n' :: cs2)) :
    parseRecAux (n + 1) cs cur = (f :: cur).reverse :: parseRecAux n cs2 [] := by
  rw [parseRecAux, hfr]
  simp

theorem parseRecAux_step_stop (n : Nat) (cs : List Char) (cur : List (List Char))
    (f rest : List Char) (hfr : parseFieldC cs = (f, rest))
    (h1 : rest.head? ≠ some ',') (h2 : rest.head? ≠ some '\n') :
    parseRecAux (n + 1) cs cur = [(f :: cur).reverse] := by
  rw [parseRecAux, hfr]
  split
  · next heq =>
    injection heq with hq hr
    exact absurd (by rw [hr]; rfl) h1
  · next heq =>
    injection heq with hq hr
    exact absurd (by rw [hr]; rfl) h2
  · next heq =>
    injection heq with hq hr
    rw [hq]

theorem parseRecAux_fuel_eq :
    ∀ (n m : Nat) (cs : List Char) (cur : List (List Char)),
      cs.length < n → cs.length < m →
      parseRecAux n cs cur = parseRecAux m cs cur := by
  intro n
  induction n with
  | zero => intro m cs cur h _; omega
  | succ n ih =>
    intro m cs cur hn hm
    match m with
    | 0 => omega
    | m + 1 =>
      rcases hfr : parseFieldC cs with ⟨f, rest⟩
      have hrl : rest.length ≤ cs.length := by
        have h := parseFieldC_rest_length cs
        rw [hfr] at h
        exact h
      match rest, hrl with
      | [], _ =>
        rw [parseRecAux_step_stop n cs cur f [] hfr (by simp) (by simp),
          parseRecAux_step_stop m cs cur f [] hfr (by simp) (by simp)]
      | c :: cs2, hrl =>
        have hlen : cs2.length < cs.length := by
          simp only [List.length_cons] at hrl
          omega
        by_cases hc : c = ','
        · subst hc
          rw [parseRecAux_step_comma n cs cur f cs2 hfr,
            parseRecAux_step_comma m cs cur f cs2 hfr]
          exact ih m cs2 (f :: cur) (by omega) (by omega)
        · by_cases hc2 : c = '\n'
          · subst hc2
            rw [parseRecAux_step_newline n cs cur f cs2 hfr,
              parseRecAux_step_newline m cs cur f cs2 hfr]
            rw [ih m cs2 [] (by omega) (by omega)]
          · rw [parseRecAux_step_stop n cs cur f (c :: cs2) hfr
                (by simp [hc]) (by simp [hc2]),
              parseRecAux_step_stop m cs cur f (c :: cs2) hfr
                (by simp [hc]) (by simp [hc2])]

/-- The input after an escaped field is well-formed when it is empty or
starts with a separator. -/
def sepOK : List Char → Prop
  | [] => True
  | c :: _ => c = ',' ∨ c = '\n'

theorem takeWhile_append_all {p : Char → Bool} (xs ys : List Char)
    (h : ∀ x ∈ xs, p x = true) :
    (xs ++ ys).takeWhile p = xs ++ ys.takeWhile p := by
  induction xs with
  | nil => simp
  | cons x xs ih =>
    simp only [List.cons_append, List.takeWhile_cons, h x (by simp), if_true]
    rw [ih (fun a ha => h a (by simp [ha]))]

theorem dropWhile_append_all {p : Char → Bool} (xs ys : List Char)
    (h : ∀ x ∈ xs, p x = true) :
    (xs ++ ys).dropWhile p = ys.dropWhile p := by
  induction xs with
  | nil => simp
  | cons x xs ih =>
    simp only [List.cons_append, List.dropWhile_cons, h x (by simp), if_true]
    exact ih (fun a ha => h a (by simp [ha]))

theorem parseQuoted_quote_nil (acc : List Char) :
    parseQuoted ['"'] acc = (acc.reverse, []) := by
  simp [parseQuoted]

theorem parseQuoted_quote_quote (cs acc : List Char) :
    parseQuoted ('"' :: '"' :: cs) acc = parseQuoted cs ('"' :: acc) := by
  simp [parseQuoted]

theorem parseQuoted_quote_other (c : Char) (cs acc : List Char) (h : ¬ c = '"') :
    parseQuoted ('"' :: c :: cs) acc = (acc.reverse, c :: cs) := by
  simp [parseQuoted, h]

theorem parseQuoted_other (c : Char) (cs acc : List Char) (h : ¬ c = '"') :
    parseQuoted (c :: cs) acc = parseQuoted cs (c :: acc) := by
  rw [parseQuoted.eq_def]
  simp [h]

theorem parseQuoted_doubleQuotes :
    ∀ (f acc rest : List Char), rest.head? ≠ some '"' →
      parseQuoted (doubleQuotes f ++ '"' :: rest) acc = (acc.reverse ++ f, rest) := by
  intro f
  induction f with
  | nil =>
    intro acc rest h
    rw [doubleQuotes, List.nil_append]
    match rest, h with
    | [], _ => rw [parseQuoted_quote_nil]; simp
    | c2 :: cs2, h =>
      have hc2 : ¬ c2 = '"' := by
        intro hh
        exact h (by rw [hh]; rfl)
      rw [parseQuoted_quote_other c2 cs2 acc hc2]
      simp
  | cons c f' ih =>
    intro acc rest h
    by_cases hc : c = '"'
    · subst hc
      rw [doubleQuotes, if_pos rfl, List.cons_append, List.cons_append]
      rw [parseQuoted_quote_quote, ih ('"' :: acc) rest h]
      simp
    · rw [doubleQuotes, if_neg hc, List.cons_append]
      rw [parseQuoted_other c _ acc hc, ih (c :: acc) rest h]
      simp

theorem needsCSVQuoting_false {f : List Char} (h : needsCSVQuoting f = false) :
    ',' ∉ f ∧ '\n' ∉ f ∧ '"' ∉ f := by
  simp only [needsCSVQuoting, Bool.or_eq_false_iff, decide_eq_false_iff_not] at h
  exact ⟨h.1.1, h.1.2, h.2⟩

theorem sepOK_head_ne_quote {rest : List Char} (h : sepOK rest) :
    rest.head? ≠ some '"' := by
  match rest, h with
  | [], _ => simp
  | c :: cs, h =>
    rcases h with h | h <;> subst h <;> simp

theorem parseFieldC_escape (f rest : List Char) (h : sepOK rest) :
    parseFieldC (escapeCSVChars f ++ rest) = (f, rest) := by
  rw [escapeCSVChars]
  by_cases hq : needsCSVQuoting f = true
  · rw [if_pos hq]
    have happ : ('"' :: (doubleQuotes f ++ ['"'])) ++ rest =
        '"' :: (doubleQuotes f ++ '"' :: rest) := by simp
    rw [happ, parseFieldC.eq_def]
    simp only [if_pos rfl]
    rw [parseQuoted_doubleQuotes f [] rest (sepOK_head_ne_quote h)]
    simp
  · have hq' : needsCSVQuoting f = false := by
      cases hnq : needsCSVQuoting f
      · rfl
      · exact absurd hnq hq
    obtain ⟨hcomma, hnl, hquote⟩ := needsCSVQuoting_false hq'
    rw [if_neg hq]
    have hall : ∀ x ∈ f, notFieldEnd x = true := by
      intro x hx
      have hx1 : x ≠ ',' := fun hh => hcomma (hh ▸ hx)
      have hx2 : x ≠ '\n' := fun hh => hnl (hh ▸ hx)
      simp [notFieldEnd, hx1, hx2]
    have hrest_take : rest.takeWhile notFieldEnd = [] := by
      match rest, h with
      | [], _ => rfl
      | c :: cs, h =>
        rcases h with h | h <;> subst h <;> simp [List.takeWhile_cons, notFieldEnd]
    have hrest_drop : rest.dropWhile notFieldEnd = rest := by
      match rest, h with
      | [], _ => rfl
      | c :: cs, h =>
        rcases h with h | h <;> subst h <;> simp [List.dropWhile_cons, notFieldEnd]
    match f, hall, hquote with
    | [], _, _ =>
      rw [List.nil_append, parseFieldC.eq_def]
      match rest, h, hrest_take, hrest_drop with
      | [], _, _, _ => rfl
      | c :: cs, h, htk, hdr =>
        have hc : ¬ c = '"' := by
          rcases h with h | h <;> subst h <;> simp
        simp only [if_neg hc]
        rw [htk, hdr]
    | c :: f', hall, hquote =>
      have hc : ¬ c = '"' := fun hh => hquote (hh ▸ List.mem_cons_self _ _)
      rw [List.cons_append, parseFieldC.eq_def]
      simp only [if_neg hc]
      rw [show (c :: (f' ++ rest)) = ((c :: f') ++ rest) by simp]
      rw [takeWhile_append_all _ _ hall, dropWhile_append_all _ _ hall,
        hrest_take, hrest_drop]
      simp

theorem parseRecAux_row_last :
    ∀ (fs : List (List Char)) (f : List Char) (cur : List (List Char)) (n : Nat),
      (csvRowChars (f :: fs)).length < n →
      parseRecAux n (csvRowChars (f :: fs)) cur = [cur.reverse ++ f :: fs] := by
  intro fs
  induction fs with
  | nil =>
    intro f cur n hn
    have hrow : csvRowChars [f] = escapeCSVChars f := by
      simp [csvRowChars, joinSep]
    rw [hrow] at hn ⊢
    match n, hn with
    | n + 1, _ =>
      have hf : parseFieldC (escapeCSVChars f) = (f, []) := by
        have h := parseFieldC_escape f [] trivial
        simpa using h
      rw [parseRecAux_step_stop n _ cur f [] hf (by simp) (by simp)]
      simp
  | cons f2 fs ih =>
    intro f cur n hn
    have hrow : csvRowChars (f :: f2 :: fs) =
        escapeCSVChars f ++ ',' :: csvRowChars (f2 :: fs) := by
      simp [csvRowChars, joinSep]
    rw [hrow] at hn ⊢
    match n, hn with
    | n + 1, hn =>
      have hf : parseFieldC (escapeCSVChars f ++ ',' :: csvRowChars (f2 :: fs)) =
          (f, ',' :: csvRowChars (f2 :: fs)) :=
        parseFieldC_escape f _ (Or.inl rfl)
      rw [parseRecAux_step_comma n _ cur f _ hf]
      rw [ih f2 (f :: cur) n (by simp only [List.length_append, List.length_cons] at hn; omega)]
      simp

theorem parseRecAux_row_newline :
    ∀ (fs : List (List Char)) (f : List Char) (cur : List (List Char))
      (tail : List Char) (n : Nat),
      (csvRowChars (f :: fs) ++ '\n' :: tail).length < n →
      parseRecAux n (csvRowChars (f :: fs) ++ '\n' :: tail) cur =
        (cur.reverse ++ f :: fs) :: parseRecAux (tail.length + 1) tail [] := by
  intro fs
  induction fs with
  | nil =>
    intro f cur tail n hn
    have hrow : csvRowChars [f] = escapeCSVChars f := by
      simp [csvRowChars, joinSep]
    rw [hrow] at hn ⊢
    match n, hn with
    | n + 1, hn =>
      have hf : parseFieldC (escapeCSVChars f ++ '\n' :: tail) =
          (f, '\n' :: tail) :=
        parseFieldC_escape f _ (Or.inr rfl)
      rw [parseRecAux_step_newline n _ cur f _ hf]
      rw [parseRecAux_fuel_eq n (tail.length + 1) tail []
        (by simp only [List.length_append, List.length_cons] at hn; omega) (by omega)]
      simp
  | cons f2 fs ih =>
    intro f cur tail n hn
    have hrow : csvRowChars (f :: f2 :: fs) =
        escapeCSVChars f ++ ',' :: csvRowChars (f2 :: fs) := by
      simp [csvRowChars, joinSep]
    rw [hrow] at hn ⊢
    match n, hn with
    | n + 1, hn =>
      have hf : parseFieldC
          (escapeCSVChars f ++ ',' :: (csvRowChars (f2 :: fs) ++ '\n' :: tail)) =
          (f, ',' :: (csvRowChars (f2 :: fs) ++ '\n' :: tail)) :=
        parseFieldC_escape f _ (Or.inl rfl)
      have happ : (escapeCSVChars f ++ ',' :: csvRowChars (f2 :: fs)) ++ '\n' :: tail =
          escapeCSVChars f ++ ',' :: (csvRowChars (f2 :: fs) ++ '\n' :: tail) := by
        simp
      rw [happ, parseRecAux_step_comma n _ cur f _ hf]
      rw [ih f2 (f :: cur) tail n
        (by simp only [List.length_append, List.length_cons] at hn ⊢; omega)]
      simp

theorem parseRecAux_rows :
    ∀ (rows : List (List (List Char))), (∀ r ∈ rows, r ≠ []) → rows ≠ [] →
      ∀ n, (joinSep ['\n'] (rows.map csvRowChars)).length < n →
      parseRecAux n (joinSep ['\n'] (rows.map csvRowChars)) [] = rows := by
  intro rows
  induction rows with
  | nil => intro _ h; exact absurd rfl h
  | cons r rows ih =>
    intro hne _ n hn
    match rows, ih, hne, hn with
    | [], _, hne, hn =>
      have hr : r ≠ [] := hne r (by simp)
      match r, hr with
      | f :: fs, _ =>
        simp only [List.map_cons, List.map_nil, joinSep] at hn ⊢
        rw [parseRecAux_row_last fs f [] n hn]
        simp
    | r2 :: rt, ih, hne, hn =>
      have hr : r ≠ [] := hne r (by simp)
      match r, hr with
      | f :: fs, _ =>
        have hsep : joinSep ['\n'] (((f :: fs) :: r2 :: rt).map csvRowChars) =
            csvRowChars (f :: fs) ++ '\n' ::
              joinSep ['\n'] ((r2 :: rt).map csvRowChars) := by
          simp [joinSep]
        rw [hsep] at hn ⊢
        rw [parseRecAux_row_newline fs f [] _ n hn]
        rw [ih (fun a ha => hne a (by simp [ha])) (by simp)
          ((joinSep ['\n'] ((r2 :: rt).map csvRowChars)).length + 1) (by omega)]
        simp

theorem String_mk_data (s : String) : (⟨s.data⟩ : String) = s := rfl

theorem standardCSVParse_exportToCSV (results : List ScrapeResult) :
    standardCSVParse (exportToCSV results) =
      ["Question", "Answer", "Sources"] ::
        results.map (fun r => [r.question, r.answer, r.sources]) := by
  have hheader : "Question,Answer,Sources".data =
      csvRowChars ["Question".data, "Answer".data, "Sources".data] := by decide
  show (parseRecAux ((csvContentChars _).length + 1) (csvContentChars _) []).map _ = _
  rw [csvContentChars, hheader]
  rw [show csvRowChars ["Question".data, "Answer".data, "Sources".data] ::
        (results.map (fun r => [r.question.data, r.answer.data, r.sources.data])).map
          csvRowChars =
      (["Question".data, "Answer".data, "Sources".data] ::
        results.map (fun r => [r.question.data, r.answer.data, r.sources.data])).map
          csvRowChars from by simp]
  rw [parseRecAux_rows _ ?hne (by simp) _ (by omega)]
  case hne =>
    intro r hr
    rcases List.mem_cons.1 hr with h | h
    · subst h; simp
    · obtain ⟨x, -, rfl⟩ := List.mem_map.1 h
      simp
  simp [String_mk_data]

/-- Claim C7: the CSV export quotes fields containing a comma, quote or
newline, doubling embedded quotes, and the exported text parses back — with
a standard CSV parser — to the header row plus the original field strings
of every result, for every result list (first conjunct); in particular a
result whose answer contains a comma, a double quote and a newline
round-trips exactly (second conjunct). -/
theorem C7_csv_export_roundtrip :
    (∀ results : List ScrapeResult,
      standardCSVParse (exportToCSV results) =
        ["Question", "Answer", "Sources"] ::
          results.map (fun r => [r.question, r.answer, r.sources])) ∧
    standardCSVParse (exportToCSV
        [⟨"Q1", "a,\"b\"\nc", "https://s.t, https://u.v"⟩]) =
      [["Question", "Answer", "Sources"],
       ["Q1", "a,\"b\"\nc", "https://s.t, https://u.v"]] := by
  refine ⟨standardCSVParse_exportToCSV, ?_⟩
  rw [standardCSVParse_exportToCSV]
  rfl

/-! ### The batch endpoint `POST /api/scrape` (server.js lines 1642-1878)

The handler validates the questions array, generates a session id when the
caller supplied none, creates the progress record, checks login, runs the
sequential question loop (skipping questions whose trimmed text is empty,
converting per-question failures into error rows), marks the record
`finished`, and schedules its deletion after a 5-second grace period.  An
unexpected exception jumps to the catch block, which deletes the progress
record only under the *caller-supplied* session id.

We model the progress store by the ordered list of operations performed on
it, and the environment by: the login-check verdict, an oracle giving the
outcome of `scrapeChatGPT` per loop index, and the request payload. -/

/-- The `status` strings stored in a progress record. -/
inductive Status where
  | starting
  | processing
  | completed
  | waiting
  | error
  | finished
deriving DecidableEq, Repr

/-- One value of the progress store
(`{current, total, startTime, currentQuestion, status, results}`). -/
structure ProgressRecord where
  current : Nat
  total : Nat
  startTime : Nat
  currentQuestion : Option String
  status : Status
  results : List ScrapeResult
deriving DecidableEq, Repr

/-- An operation performed on `progressStore`, in program order.
`delayedDel` is the deletion scheduled 5 seconds after success. -/
inductive StoreEvent where
  | set (id : String) (record : ProgressRecord)
  | del (id : String)
  | delayedDel (id : String)
deriving DecidableEq, Repr

/-- An element of the JSON `questions` array: a string, or any non-string
value (on which `.trim()` throws a `TypeError`). -/
inductive QItem where
  | str (s : String)
  | nonString
deriving DecidableEq, Repr

/-- The outcome of one `scrapeChatGPT` call: a result (answer text and
joined sources string) or a thrown error message. -/
inductive ScrapeOutcome where
  | ok (answer : String) (sources : String)
  | err (msg : String)
deriving DecidableEq, Repr

/-- The HTTP response of the endpoint. -/
inductive ApiResult where
  /-- 400: questions array missing or empty. -/
  | badRequest
  /-- 401 `LOGIN_REQUIRED`. -/
  | loginRequired
  /-- 200 `{results, sessionId}`. -/
  | okResults (results : List ScrapeResult) (sessionId : String)
  /-- 500/503 from the catch block. -/
  | serverError (msg : String)
deriving DecidableEq, Repr

/-- JavaScript `String.prototype.trim()`: strip leading and trailing
whitespace. -/
def jsTrim (s : String) : String :=
  ⟨((s.data.dropWhile Char.isWhitespace).reverse.dropWhile
    Char.isWhitespace).reverse⟩

/-- `sessionId || generated`: a caller-supplied empty string is falsy in
JavaScript, so it also falls back to the generated id. -/
def effectiveSessionId (provided : Option String) (autoId : String) : String :=
  match provided with
  | some s => if s = "" then autoId else s
  | none => autoId

/-- The sequential question loop (lines 1715-1794).  `i` is the loop index,
`n = questions.length`.  Returns `(thrown, results, events)` where `thrown`
carries the message of an uncaught exception (a non-string question item:
`.trim()` is not a function), `results` the accumulated result rows and
`events` the progress-store operations performed so far. -/
def scrapeLoop (id : String) (t0 : Nat) (n : Nat) (outcomes : Nat → ScrapeOutcome) :
    Nat → List QItem → List ScrapeResult → List StoreEvent →
    Option String × List ScrapeResult × List StoreEvent
  | _, [], results, events => (none, results, events)
  | i, q :: rest, results, events =>
    match q with
    | .nonString => (some "questions[i].trim is not a function", results, events)
    | .str s =>
      let question := jsTrim s
      if question = "" then scrapeLoop id t0 n outcomes (i + 1) rest results events
      else
        let ev1 := StoreEvent.set id ⟨i, n, t0, some question, .processing, results⟩
        match outcomes i with
        | .ok ans src =>
          let results1 := results ++ [⟨question, ans, src⟩]
          let events1 := events ++ [ev1,
            .set id ⟨i + 1, n, t0, none, .completed, results1⟩]
          let events2 :=
            if i < n - 1 then
              events1 ++ [.set id ⟨i + 1, n, t0, none, .waiting, results1⟩]
            else events1
          scrapeLoop id t0 n outcomes (i + 1) rest results1 events2
        | .err msg =>
          let results1 := results ++ [⟨question, "Error: " ++ msg, ""⟩]
          scrapeLoop id t0 n outcomes (i + 1) rest results1
            (events ++ [ev1, .set id ⟨i + 1, n, t0, none, .error, results1⟩])

/-- The `POST /api/scrape` handler. -/
def handleScrape (questions : List QItem) (providedId : Option String)
    (autoId : String) (loginOk : Bool) (outcomes : Nat → ScrapeOutcome)
    (t0 : Nat) : ApiResult × List StoreEvent :=
  if questions.isEmpty then (.badRequest, [])
  else
    let id := effectiveSessionId providedId autoId
    let ev0 : List StoreEvent :=
      [.set id ⟨0, questions.length, t0, none, .starting, []⟩]
    if !loginOk then (.loginRequired, ev0 ++ [.del id])
    else
      match scrapeLoop id t0 questions.length outcomes 0 questions [] ev0 with
      | (some errMsg, _, events) =>
        (.serverError errMsg,
          events ++
            (match providedId with
             | some s => if s = "" then [] else [.del s]
             | none => []))
      | (none, results, events) =>
        (.okResults results id,
          events ++
            [.set id ⟨questions.length, questions.length, t0, none, .finished, results⟩,
             .delayedDel id])

/-- The row the loop records for the non-blank question `s` at index `i`:
the scrape result on success, the synthetic error row on failure. -/
def expectedResult (outcomes : Nat → ScrapeOutcome) (i : Nat) (s : String) :
    ScrapeResult :=
  match outcomes i with
  | .ok ans src => ⟨jsTrim s, ans, src⟩
  | .err msg => ⟨jsTrim s, "Error: " ++ msg, ""⟩

/-- The rows the loop accumulates for a list of string questions starting
at index `i`: blank-trimming questions contribute nothing. -/
def expectedResults (outcomes : Nat → ScrapeOutcome) : Nat → List String → List ScrapeResult
  | _, [] => []
  | i, s :: rest =>
    if jsTrim s = "" then expectedResults outcomes (i + 1) rest
    else expectedResult outcomes i s :: expectedResults outcomes (i + 1) rest

theorem scrapeLoop_all_str (id : String) (t0 n : Nat) (outcomes : Nat → ScrapeOutcome) :
    ∀ (qs : List String) (i : Nat) (results : List ScrapeResult)
      (events : List StoreEvent),
      (scrapeLoop id t0 n outcomes i (qs.map .str) results events).1 = none ∧
      (scrapeLoop id t0 n outcomes i (qs.map .str) results events).2.1 =
        results ++ expectedResults outcomes i qs := by
  intro qs
  induction qs with
  | nil => intro i results events; simp [scrapeLoop, expectedResults]
  | cons s qs ih =>
    intro i results events
    rw [List.map_cons, scrapeLoop]
    by_cases hb : jsTrim s = ""
    · simp only [hb, if_pos rfl, expectedResults]
      have h := ih (i + 1) results events
      simpa [hb] using h
    · rw [if_neg hb]
      cases houtcome : outcomes i with
      | ok ans src =>
        simp only
        refine ⟨(ih _ _ _).1, ?_⟩
        rw [(ih _ _ _).2, expectedResults, if_neg hb]
        simp [expectedResult, houtcome]
      | err msg =>
        simp only
        refine ⟨(ih _ _ _).1, ?_⟩
        rw [(ih _ _ _).2, expectedResults, if_neg hb]
        simp [expectedResult, houtcome]

theorem scrapeLoop_events_sets (id : String) (t0 n : Nat)
    (outcomes : Nat → ScrapeOutcome) :
    ∀ (qs : List QItem) (i : Nat) (results : List ScrapeResult)
      (events : List StoreEvent),
      ∀ e ∈ (scrapeLoop id t0 n outcomes i qs results events).2.2,
        e ∈ events ∨ ∃ id2 r2, e = .set id2 r2 := by
  intro qs
  induction qs with
  | nil => intro i results events e he; exact Or.inl he
  | cons q qs ih =>
    intro i results events e he
    match q with
    | .nonString =>
      rw [scrapeLoop] at he
      exact Or.inl he
    | .str s =>
      rw [scrapeLoop] at he
      by_cases hb : jsTrim s = ""
      · simp only [hb, if_pos rfl] at he
        exact ih (i + 1) results events e he
      · simp only [if_neg hb] at he
        cases houtcome : outcomes i with
        | ok ans src =>
          rw [houtcome] at he
          simp only at he
          rcases ih _ _ _ e he with h | h
          · by_cases hw : i < n - 1
            · simp only [if_pos hw] at h
              rcases List.mem_append.1 h with h' | h'
              · rcases List.mem_append.1 h' with h'' | h''
                · exact Or.inl h''
                · rcases List.mem_cons.1 h'' with h3 | h3
                  · exact Or.inr ⟨_, _, h3⟩
                  · simp only [List.mem_singleton] at h3
                    exact Or.inr ⟨_, _, h3⟩
              · simp only [List.mem_singleton] at h'
                exact Or.inr ⟨_, _, h'⟩
            · simp only [if_neg hw] at h
              rcases List.mem_append.1 h with h' | h'
              · exact Or.inl h'
              · rcases List.mem_cons.1 h' with h3 | h3
                · exact Or.inr ⟨_, _, h3⟩
                · simp only [List.mem_singleton] at h3
                  exact Or.inr ⟨_, _, h3⟩
          · exact Or.inr h
        | err msg =>
          rw [houtcome] at he
          simp only at he
          rcases ih _ _ _ e he with h | h
          · rcases List.mem_append.1 h with h' | h'
            · exact Or.inl h'
            · rcases List.mem_cons.1 h' with h3 | h3
              · exact Or.inr ⟨_, _, h3⟩
              · simp only [List.mem_singleton] at h3
                exact Or.inr ⟨_, _, h3⟩
          · exact Or.inr h

theorem expectedResults_no_blank_length (outcomes : Nat → ScrapeOutcome) :
    ∀ (qs : List String) (i : Nat), (∀ s ∈ qs, jsTrim s ≠ "") →
      (expectedResults outcomes i qs).length = qs.length := by
  intro qs
  induction qs with
  | nil => intro i _; rfl
  | cons s qs ih =>
    intro i h
    rw [expectedResults, if_neg (h s (by simp))]
    simp [ih (i + 1) (fun a ha => h a (by simp [ha]))]

theorem expectedResults_no_blank_enum (outcomes : Nat → ScrapeOutcome) :
    ∀ (qs : List String) (i : Nat), (∀ s ∈ qs, jsTrim s ≠ "") →
      expectedResults outcomes i qs =
        (qs.enumFrom i).map (fun p => expectedResult outcomes p.1 p.2) := by
  intro qs
  induction qs with
  | nil => intro i _; rfl
  | cons s qs ih =>
    intro i h
    rw [expectedResults, if_neg (h s (by simp)), List.enumFrom_cons]
    simp only [List.map_cons]
    rw [ih (i + 1) (fun a ha => h a (by simp [ha]))]

theorem expectedResults_blank_length_lt (outcomes : Nat → ScrapeOutcome) :
    ∀ (qs : List String) (i : Nat), (∃ s ∈ qs, jsTrim s = "") →
      (expectedResults outcomes i qs).length < qs.length := by
  intro qs
  induction qs with
  | nil => rintro i ⟨s, hs, -⟩; simp at hs
  | cons s qs ih =>
    rintro i ⟨a, ha, hblank⟩
    rcases List.mem_cons.1 ha with rfl | ha'
    · rw [expectedResults, if_pos hblank]
      have : (expectedResults outcomes (i + 1) qs).length ≤ qs.length := by
        clear ih ha hblank
        induction qs generalizing i with
        | nil => simp [expectedResults]
        | cons b bs ihb =>
          rw [expectedResults]
          by_cases hb : jsTrim b = ""
          · rw [if_pos hb]
            have := ihb (i + 1)
            simp only [List.length_cons]
            omega
          · rw [if_neg hb]
            have := ihb (i + 1)
            simp only [List.length_cons]
            omega
      simp only [List.length_cons]
      omega
    · rw [expectedResults]
      by_cases hb : jsTrim s = ""
      · rw [if_pos hb]
        have := ih (i + 1) ⟨a, ha', hblank⟩
        simp only [List.length_cons]
        omega
      · rw [if_neg hb]
        have := ih (i + 1) ⟨a, ha', hblank⟩
        simp only [List.length_cons]
        omega

theorem handleScrape_ok_path (qs : List String) (providedId : Option String)
    (autoId : String) (outcomes : Nat → ScrapeOutcome) (t0 : Nat) (hne : qs ≠ []) :
    ∃ events, handleScrape (qs.map .str) providedId autoId true outcomes t0 =
      (.okResults (expectedResults outcomes 0 qs)
        (effectiveSessionId providedId autoId), events) := by
  have hie : (qs.map QItem.str).isEmpty = false := by
    cases qs with
    | nil => exact absurd rfl hne
    | cons a l => rfl
  simp only [handleScrape, hie, Bool.not_true, Bool.false_eq_true, if_false]
  have h := scrapeLoop_all_str (effectiveSessionId providedId autoId) t0
    (qs.map QItem.str).length outcomes qs 0 []
    [.set (effectiveSessionId providedId autoId)
      ⟨0, (qs.map QItem.str).length, t0, none, .starting, []⟩]
  rcases hsl : scrapeLoop (effectiveSessionId providedId autoId) t0
      (qs.map QItem.str).length outcomes 0 (qs.map QItem.str) []
      [.set (effectiveSessionId providedId autoId)
        ⟨0, (qs.map QItem.str).length, t0, none, .starting, []⟩] with ⟨th, rs, es⟩
  rw [hsl] at h
  simp only at h
  obtain ⟨hth, hrs⟩ := h
  subst hth
  subst hrs
  exact ⟨_, rfl⟩

/-- Claim C1, counterexample: the whitespace-only question `" "` passes the
non-empty-array validation but is skipped by the loop without appending any
result, so the returned results list is empty while the input list has
length 1 — the claim's "exactly the same length" fails. -/
theorem C1_counterexample :
    (handleScrape [.str " "] none "auto" true (fun _ => .ok "ans" "") 0).1 =
      .okResults [] "auto" ∧
    ([] : List ScrapeResult).length ≠ [QItem.str " "].length := by
  constructor
  · rfl
  · decide

/-- Claim C1 (amended): for every non-empty list of question strings *whose
trimmed text is non-empty*, the batch returns one result per question, in
input order (the k-th result's question field is the k-th input trimmed),
with each failed question represented by an error row (answer
`"Error: " ++ message`, empty sources) rather than omitted. -/
theorem C1_batch_length_and_order :
    ∀ (qs : List String) (providedId : Option String) (autoId : String)
      (outcomes : Nat → ScrapeOutcome) (t0 : Nat),
      qs ≠ [] → (∀ s ∈ qs, jsTrim s ≠ "") →
      ∃ events, handleScrape (qs.map .str) providedId autoId true outcomes t0 =
        (.okResults ((qs.enumFrom 0).map (fun p => expectedResult outcomes p.1 p.2))
          (effectiveSessionId providedId autoId), events) ∧
        ((qs.enumFrom 0).map (fun p => expectedResult outcomes p.1 p.2)).length =
          qs.length := by
  intro qs providedId autoId outcomes t0 hne hnb
  obtain ⟨events, hev⟩ := handleScrape_ok_path qs providedId autoId outcomes t0 hne
  refine ⟨events, ?_, by simp [List.enumFrom_length]⟩
  rw [hev, expectedResults_no_blank_enum outcomes qs 0 hnb]

/-- Witness for the amended claim C1 at a concrete input: two questions,
the second failing, yield two ordered rows with an error row second. -/
theorem C1_batch_length_and_order_witness :
    ([" q1 ", "q2"] ≠ ([] : List String) ∧
      (∀ s ∈ [" q1 ", "q2"], jsTrim s ≠ "")) ∧
    (∃ events, handleScrape ([" q1 ", "q2"].map .str) none "auto" true
        (fun i => if i = 0 then .ok "ans" "" else .err "boom") 0 =
      (.okResults (([" q1 ", "q2"].enumFrom 0).map
          (fun p => expectedResult
            (fun i => if i = 0 then .ok "ans" "" else .err "boom") p.1 p.2))
        (effectiveSessionId none "auto"), events) ∧
      (([" q1 ", "q2"].enumFrom 0).map
          (fun p => expectedResult
            (fun i => if i = 0 then .ok "ans" "" else .err "boom") p.1 p.2)).length =
        [" q1 ", "q2"].length) :=
  ⟨⟨by decide, by decide⟩,
   C1_batch_length_and_order [" q1 ", "q2"] none "auto"
     (fun i => if i = 0 then .ok "ans" "" else .err "boom") 0
     (by decide) (by decide)⟩

/-- Claim C2, counterexample: with the login check reporting not-logged-in,
the handler still *creates* the progress record for the session id before
checking login — the `set` operation is observable in the store's event
trace — contradicting "zero ProgressRecord entries are produced for that
session id".  (It is deleted again before the 401 response, shown by the
trailing `del`.) -/
theorem C2_counterexample :
    (handleScrape [.str "q"] none "auto" false (fun _ => .ok "" "") 0).2 =
      [.set "auto" ⟨0, 1, 0, none, .starting, []⟩, .del "auto"] ∧
    StoreEvent.set "auto" ⟨0, 1, 0, none, .starting, []⟩ ∈
      (handleScrape [.str "q"] none "auto" false (fun _ => .ok "" "") 0).2 := by
  constructor
  · rfl
  · rw [show (handleScrape [.str "q"] none "auto" false (fun _ => .ok "" "") 0).2 =
      [.set "auto" ⟨0, 1, 0, none, .starting, []⟩, .del "auto"] from rfl]
    exact List.mem_cons_self _ _

/-- Claim C2 (amended): when the login check reports not-logged-in the
batch fails fast with `LoginRequired` and zero ScrapeResults, and the
progress record — created at entry, hence transiently observable — is
deleted again before the response, so the store operations are exactly one
`set` of the `starting` record followed by its `del`. -/
theorem C2_login_fail_fast :
    ∀ (questions : List QItem) (providedId : Option String) (autoId : String)
      (outcomes : Nat → ScrapeOutcome) (t0 : Nat),
      questions ≠ [] →
      handleScrape questions providedId autoId false outcomes t0 =
        (.loginRequired,
         [.set (effectiveSessionId providedId autoId)
            ⟨0, questions.length, t0, none, .starting, []⟩,
          .del (effectiveSessionId providedId autoId)]) := by
  intro questions providedId autoId outcomes t0 hne
  have hie : questions.isEmpty = false := by
    cases questions with
    | nil => exact absurd rfl hne
    | cons a l => rfl
  simp [handleScrape, hie]

/-- Witness for the amended claim C2 at a concrete input. -/
theorem C2_login_fail_fast_witness :
    ([QItem.str "q"] ≠ ([] : List QItem)) ∧
    handleScrape [.str "q"] (some "sid") "auto" false (fun _ => .ok "" "") 7 =
      (.loginRequired,
       [.set (effectiveSessionId (some "sid") "auto") ⟨0, 1, 7, none, .starting, []⟩,
        .del (effectiveSessionId (some "sid") "auto")]) :=
  ⟨by decide,
   C2_login_fail_fast [.str "q"] (some "sid") "auto" (fun _ => .ok "" "") 7 (by decide)⟩

/-- Claim C9: a question whose trimmed text is empty is skipped entirely —
the loop appends no result row (not even an error row) and performs no
progress-store update for it (first conjunct, an exact equation stepping
over the blank question) — and consequently, whenever the input contains a
whitespace-only question, the returned results list is strictly shorter
than the input list (second conjunct). -/
theorem C9_blank_questions_skipped :
    (∀ (id : String) (t0 n : Nat) (outcomes : Nat → ScrapeOutcome) (i : Nat)
       (s : String) (rest : List QItem) (results : List ScrapeResult)
       (events : List StoreEvent),
      jsTrim s = "" →
      scrapeLoop id t0 n outcomes i (.str s :: rest) results events =
        scrapeLoop id t0 n outcomes (i + 1) rest results events) ∧
    (∀ (qs : List String) (providedId : Option String) (autoId : String)
       (outcomes : Nat → ScrapeOutcome) (t0 : Nat),
      (∃ s ∈ qs, jsTrim s = "") →
      ∀ results sid events,
        handleScrape (qs.map .str) providedId autoId true outcomes t0 =
          (.okResults results sid, events) →
        results.length < qs.length) := by
  constructor
  · intro id t0 n outcomes i s rest results events hblank
    rw [scrapeLoop, if_pos hblank]
  · intro qs providedId autoId outcomes t0 hblank results sid events hrun
    have hne : qs ≠ [] := by
      rintro rfl
      obtain ⟨s, hs, -⟩ := hblank
      simp at hs
    obtain ⟨events2, hev⟩ := handleScrape_ok_path qs providedId autoId outcomes t0 hne
    rw [hev] at hrun
    have : results = expectedResults outcomes 0 qs := by
      injection hrun with h1 h2
      injection h1 with h3 h4
      exact h3.symm
    rw [this]
    exact expectedResults_blank_length_lt outcomes qs 0 hblank

/-- Witness for claim C9 at a concrete input: a blank question is stepped
over without any store event or result row. -/
theorem C9_blank_questions_skipped_witness :
    (jsTrim " " = "") ∧
    scrapeLoop "sid" 0 2 (fun _ => .ok "a" "") 0 [.str " ", .str "q"] [] [] =
      scrapeLoop "sid" 0 2 (fun _ => .ok "a" "") 1 [.str "q"] [] [] :=
  ⟨by decide,
   (C9_blank_questions_skipped.1 "sid" 0 2 (fun _ => .ok "a" "") 0 " "
     [.str "q"] [] [] (by decide))⟩

/-- Claim C10: when the handler fails with an unexpected error after
creating the progress record, the catch block deletes the record only under
the caller-supplied session id.  First conjunct: with no caller-supplied id
(auto-generated session id) the event trace of the error path consists of
`set` operations only — no `del` and no grace-period `delayedDel` ever runs,
so the record is never removed.  Second conjunct: with a caller-supplied
non-empty id the catch block deletes exactly that id, and no grace-period
deletion runs either. -/
theorem C10_catch_cleanup_only_provided_id :
    (∀ (questions : List QItem) (autoId : String) (outcomes : Nat → ScrapeOutcome)
       (t0 : Nat) (msg : String) (events : List StoreEvent),
      handleScrape questions none autoId true outcomes t0 =
        (.serverError msg, events) →
      ∀ e ∈ events, ∃ id2 r2, e = .set id2 r2) ∧
    (∀ (questions : List QItem) (s autoId : String)
       (outcomes : Nat → ScrapeOutcome) (t0 : Nat) (msg : String)
       (events : List StoreEvent),
      s ≠ "" →
      handleScrape questions (some s) autoId true outcomes t0 =
        (.serverError msg, events) →
      .del s ∈ events ∧ ∀ id2, StoreEvent.delayedDel id2 ∉ events) := by
  constructor
  · intro questions autoId outcomes t0 msg events hrun e he
    by_cases hie : questions.isEmpty = true
    · rw [handleScrape, if_pos hie] at hrun
      exact absurd (congrArg Prod.fst hrun) (by simp)
    · simp only [handleScrape, if_neg hie, Bool.not_true, Bool.false_eq_true,
        if_false] at hrun
      rcases hsl : scrapeLoop (effectiveSessionId none autoId) t0 questions.length
          outcomes 0 questions []
          [.set (effectiveSessionId none autoId)
            ⟨0, questions.length, t0, none, .starting, []⟩] with ⟨th, rs, es⟩
      rw [hsl] at hrun
      cases th with
      | none => exact absurd (congrArg Prod.fst hrun) (by simp)
      | some m =>
        simp only [List.append_nil] at hrun
        have hev : events = es := (congrArg Prod.snd hrun).symm
        subst hev
        have hsets := scrapeLoop_events_sets (effectiveSessionId none autoId) t0
          questions.length outcomes questions 0 []
          [.set (effectiveSessionId none autoId)
            ⟨0, questions.length, t0, none, .starting, []⟩] e
        rw [hsl] at hsets
        rcases hsets he with h | h
        · simp only [List.mem_singleton] at h
          exact ⟨_, _, h⟩
        · exact h
  · intro questions s autoId outcomes t0 msg events hs hrun
    by_cases hie : questions.isEmpty = true
    · rw [handleScrape, if_pos hie] at hrun
      exact absurd (congrArg Prod.fst hrun) (by simp)
    · simp only [handleScrape, if_neg hie, Bool.not_true, Bool.false_eq_true,
        if_false] at hrun
      rcases hsl : scrapeLoop (effectiveSessionId (some s) autoId) t0 questions.length
          outcomes 0 questions []
          [.set (effectiveSessionId (some s) autoId)
            ⟨0, questions.length, t0, none, .starting, []⟩] with ⟨th, rs, es⟩
      rw [hsl] at hrun
      cases th with
      | none => exact absurd (congrArg Prod.fst hrun) (by simp)
      | some m =>
        simp only [if_neg hs] at hrun
        have hev : events = es ++ [.del s] := (congrArg Prod.snd hrun).symm
        subst hev
        constructor
        · exact List.mem_append.2 (Or.inr (List.mem_singleton.2 rfl))
        · intro id2 hmem
          rcases List.mem_append.1 hmem with h | h
          · have hsets := scrapeLoop_events_sets (effectiveSessionId (some s) autoId)
              t0 questions.length outcomes questions 0 []
              [.set (effectiveSessionId (some s) autoId)
                ⟨0, questions.length, t0, none, .starting, []⟩]
              (StoreEvent.delayedDel id2)
            rw [hsl] at hsets
            rcases hsets h with h' | h'
            · simp at h'
            · obtain ⟨id3, r3, h3⟩ := h'
              exact StoreEvent.noConfusion h3
          · simp at h

/-- Witness for claim C10 at a concrete input: a non-string question throws
after the record is created; with no caller-supplied id the trace holds
only the initial `set`. -/
theorem C10_catch_cleanup_witness :
    handleScrape [QItem.nonString] none "auto" true (fun _ => .ok "" "") 0 =
      (.serverError "questions[i].trim is not a function",
       [.set "auto" ⟨0, 1, 0, none, .starting, []⟩]) ∧
    (∃ id2 r2, StoreEvent.set "auto"
        (⟨0, 1, 0, none, .starting, []⟩ : ProgressRecord) = .set id2 r2) :=
  ⟨rfl,
   C10_catch_cleanup_only_provided_id.1 [QItem.nonString] "auto"
     (fun _ => .ok "" "") 0 "questions[i].trim is not a function"
     [.set "auto" ⟨0, 1, 0, none, .starting, []⟩] rfl
     (.set "auto" ⟨0, 1, 0, none, .starting, []⟩) (List.mem_singleton.2 rfl)⟩

/-! ### The progress tick of `GET /api/scrape-progress/:sessionId`
(server.js lines 1606-1632)

Every second the record of the session id (when present) is turned into a
progress message.  Times are modelled over `ℚ` (`Math.round` is `round`). -/

/-- One emitted progress message. -/
structure ProgressMsg where
  current : Nat
  total : Nat
  progressPercent : ℚ
  elapsed : ℤ
  estimatedTimeRemaining : Option ℤ
  currentQuestion : Option String
  status : Status

/-- The body of the 1-second interval, for a record present in the store. -/
def progressTick (record : ProgressRecord) (now : ℤ) : ProgressMsg :=
  let elapsed : ℤ := now - record.startTime
  let progressPercent : ℚ :=
    if 0 < record.total then (record.current : ℚ) / record.total * 100 else 0
  let est : Option ℤ :=
    if 0 < record.current ∧ record.current < record.total then
      some (round (((elapsed : ℚ) / record.current) *
        ((record.total : ℚ) - record.current)))
    else none
  ⟨record.current, record.total, progressPercent, elapsed, est,
    record.currentQuestion, record.status⟩

/-- Claim C8, counterexample: the batch loop stores a `finished` record with
`current = total = 1 > 0` (first conjunct: that record is in the store's
event trace, and it survives there for the 5-second grace period while the
1-second progress interval keeps reading it); the tick on this record emits
`estimatedTimeRemaining = null` (second conjunct), not the claimed formula
value `round((elapsed / current) * (total - current)) = 0` (third
conjunct) — the code only computes the estimate when `current < total`. -/
theorem C8_counterexample :
    StoreEvent.set "auto" ⟨1, 1, 0, none, .finished, [⟨"q", "ans", ""⟩]⟩ ∈
      (handleScrape [.str "q"] none "auto" true (fun _ => .ok "ans" "") 0).2 ∧
    (progressTick ⟨1, 1, 0, none, .finished, [⟨"q", "ans", ""⟩]⟩
      5000).estimatedTimeRemaining = none ∧
    round ((((5000 : ℤ) - ((0 : Nat) : ℤ)) : ℚ) / 1 * ((1 : ℚ) - 1)) = (0 : ℤ) := by
  refine ⟨?_, ?_, ?_⟩
  · rw [show (handleScrape [.str "q"] none "auto" true (fun _ => .ok "ans" "") 0).2 =
      [.set "auto" ⟨0, 1, 0, none, .starting, []⟩,
       .set "auto" ⟨0, 1, 0, some "q", .processing, []⟩,
       .set "auto" ⟨1, 1, 0, none, .completed, [⟨"q", "ans", ""⟩]⟩,
       .set "auto" ⟨1, 1, 0, none, .finished, [⟨"q", "ans", ""⟩]⟩,
       .delayedDel "auto"] from rfl]
    simp
  · simp [progressTick]
  · norm_num

/-- Claim C8 (amended): for every emitted progress report, whenever
`0 < current < total` the estimated remaining time equals
`round((elapsed / current) * (total - current))` with
`elapsed = now - startTime`; when `current ≥ total` (e.g. the retained
`finished` record) the report carries no estimate (`null`). -/
theorem C8_estimated_time_remaining :
    ∀ (record : ProgressRecord) (now : ℤ),
      (0 < record.current → record.current < record.total →
        (progressTick record now).estimatedTimeRemaining =
          some (round ((((now - (record.startTime : ℤ)) : ℚ) / record.current) *
            ((record.total : ℚ) - record.current)))) ∧
      (record.total ≤ record.current →
        (progressTick record now).estimatedTimeRemaining = none) := by
  intro record now
  constructor
  · intro h1 h2
    simp [progressTick, h1, h2]
  · intro h
    have : ¬(0 < record.current ∧ record.current < record.total) := by omega
    simp [progressTick, this]

/-- Witness for the amended claim C8 at a concrete input. -/
theorem C8_estimated_time_remaining_witness :
    ((0 < 1 ∧ 1 < 2) ∧
      (progressTick ⟨1, 2, 0, none, .processing, []⟩ 1000).estimatedTimeRemaining =
        some (round ((((1000 : ℤ) - ((0 : Nat) : ℤ)) : ℚ) / 1 * ((2 : ℚ) - 1)))) :=
  ⟨⟨by decide, by decide⟩,
   (C8_estimated_time_remaining ⟨1, 2, 0, none, .processing, []⟩ 1000).1
     (by decide) (by decide)⟩

end ChatGPTBatch
